import Mathlib

/-!
Shallow embedding of the core RAG engine (`rag_engine.py`) of the
Resume-RAG-Chatbot repository, together with proofs of the spec claims.

The embedding models, from the source:
  * the structured-data extraction step of `rank_candidates` — the regex
    search `re.search` with pattern left-bracket `\s*` left-brace `.*`
    right-brace `\s*` right-bracket under `re.DOTALL`, followed by
    `json.loads` on the matched group with a bare `except` fallback;
  * `process_resumes` — the per-file temp-file / loader / `finally: os.remove`
    loop, chunking, and the FAISS build assignment;
  * `get_response`, `rank_candidates`, `summarize_resumes` — the not-ready
    short-circuits and the retrieval / generative-call structure.

External collaborators (PyPDFLoader, the Gemini embedding and chat models,
FAISS similarity search, langchain's history-aware retriever) are modelled
as parameters or from their documented contracts, as noted at each
definition.  Machine-level calls are recorded in an explicit trace so that
"no model call is made" is a provable statement.
-/

namespace ResumeRAG

/-! ### Python whitespace, `str.strip`, and the regex `\s` class -/

/-- ASCII whitespace as recognised by Python's `str.strip()` and by the
regex class `\s` (space, tab, newline, carriage return, form feed,
vertical tab).  Inputs are assumed ASCII; Python additionally treats some
Unicode code points as whitespace. -/
def isPySpace (c : Char) : Bool :=
  c = ' ' || c = '\t' || c = '\n' || c = '\r' || c = '\x0c' || c = '\x0b'

/-- Python `str.strip()` on a character list: drop whitespace from both ends. -/
def pyStripList (l : List Char) : List Char :=
  ((l.dropWhile isPySpace).reverse.dropWhile isPySpace).reverse

/-- Python `str.strip()`. -/
def pyStrip (s : String) : String :=
  String.mk (pyStripList s.data)

/-- Length of the maximal leading run of `\s` characters. -/
def wsRunLen (l : List Char) : Nat :=
  (l.takeWhile isPySpace).length

/-! ### The regex search of `rank_candidates`

`re.search` with the pattern: a literal left bracket, `\s*`, a literal left
brace, `.*` (greedy, DOTALL), a literal right brace, `\s*`, a literal right
bracket.  Python's backtracking semantics make the match fully determined:

  * the start is the leftmost position `i` holding a left bracket whose
    maximal following whitespace run ends at a left brace (since `\s*` is
    greedy and a left brace is not whitespace, no shorter run can succeed),
    such that some closing position exists after that brace;
  * greedy `.*` picks the largest position `p` holding a right brace whose
    maximal following whitespace run ends at a right bracket;
  * the match ends just after that right bracket.
-/

/-- Position of the left brace completing a match start at `i`:
`s[i]` is a left bracket, then a maximal whitespace run, then a left brace. -/
def braceAfter (s : List Char) (i : Nat) : Option Nat :=
  if s[i]? = some '[' then
    let m := wsRunLen (s.drop (i + 1))
    if s[i + 1 + m]? = some '\x7b' then some (i + 1 + m) else none
  else none

/-- End position (exclusive) of a match closing at `p`: `s[p]` is a right
brace, then a maximal whitespace run, then a right bracket. -/
def closeEnd (s : List Char) (p : Nat) : Option Nat :=
  if s[p]? = some '\x7d' then
    let m := wsRunLen (s.drop (p + 1))
    if s[p + 1 + m]? = some ']' then some (p + 1 + m + 1) else none
  else none

/-- A match of the array pattern can start at `i`. -/
def viableStart (s : List Char) (i : Nat) : Bool :=
  match braceAfter s i with
  | none => false
  | some b => (List.range s.length).any fun p => decide (b + 1 ≤ p) && (closeEnd s p).isSome

/-- The `re.search` of `rank_candidates`: returns `(start, end)` of the
leftmost, greedy match of the array-of-objects pattern, or `none`. -/
def reSearch (s : List Char) : Option (Nat × Nat) :=
  match (List.range s.length).find? (fun i => viableStart s i) with
  | none => none
  | some i =>
    match braceAfter s i with
    | none => none
    | some b =>
      match ((List.range s.length).reverse.find?
          fun p => decide (b + 1 ≤ p) && (closeEnd s p).isSome) with
      | none => none
      | some p =>
        match closeEnd s p with
        | none => none
        | some e => some (i, e)

/-! ### JSON values and `json.loads`

A recursive-descent parser mirroring Python's strict `json.loads`:
RFC 8259 whitespace, double-quoted strings with the standard escapes,
numbers (integers kept exactly; non-integer numbers kept by lexeme, since
no claim depends on float arithmetic), `true`/`false`/`null`, plus Python's
`NaN`/`Infinity`/`-Infinity` extensions (kept by lexeme).  Control
characters below 0x20 are rejected inside strings, as in strict mode.
Unicode escapes decode a single `\uXXXX`; surrogate-pair recombination is
decoded for a high/low pair and a lone surrogate is rejected (Lean strings
hold scalar values only) — the concrete inputs used below contain none. -/

inductive Json where
  | null : Json
  | bool (b : Bool) : Json
  | int (n : Int) : Json
  | numLex (s : String) : Json
  | str (s : String) : Json
  | arr (elems : List Json) : Json
  | obj (fields : List (String × Json)) : Json
deriving Repr

/-- JSON (RFC 8259) whitespace: space, tab, newline, carriage return. -/
def isJsonWs (c : Char) : Bool :=
  c = ' ' || c = '\t' || c = '\n' || c = '\r'

def skipJsonWs (l : List Char) : List Char :=
  l.dropWhile isJsonWs

def hexDigitVal (c : Char) : Option Nat :=
  if '0' ≤ c ∧ c ≤ '9' then some (c.toNat - 48)
  else if 'a' ≤ c ∧ c ≤ 'f' then some (c.toNat - 87)
  else if 'A' ≤ c ∧ c ≤ 'F' then some (c.toNat - 55)
  else none

/-- Value of a 4-digit hex escape. -/
def hex4 (a b c d : Char) : Option Nat :=
  match hexDigitVal a, hexDigitVal b, hexDigitVal c, hexDigitVal d with
  | some x, some y, some z, some w => some (((x * 16 + y) * 16 + z) * 16 + w)
  | _, _, _, _ => none

/-- Body of a JSON string after the opening quote; returns the decoded
string and the remaining input after the closing quote. -/
def parseStrBody (fuel : Nat) (acc : List Char) (l : List Char) : Option (String × List Char) :=
  match fuel with
  | 0 => none
  | f + 1 =>
    match l with
    | [] => none
    | '"' :: rest => some (String.mk acc.reverse, rest)
    | '\\' :: e :: rest =>
      match e with
      | '"' => parseStrBody f ('"' :: acc) rest
      | '\\' => parseStrBody f ('\\' :: acc) rest
      | '/' => parseStrBody f ('/' :: acc) rest
      | 'b' => parseStrBody f ('\x08' :: acc) rest
      | 'f' => parseStrBody f ('\x0c' :: acc) rest
      | 'n' => parseStrBody f ('\n' :: acc) rest
      | 'r' => parseStrBody f ('\r' :: acc) rest
      | 't' => parseStrBody f ('\t' :: acc) rest
      | 'u' =>
        match rest with
        | a :: b :: c :: d :: rest2 =>
          match hex4 a b c d with
          | none => none
          | some n =>
            if n < 0xD800 ∨ 0xE000 ≤ n then
              parseStrBody f (Char.ofNat n :: acc) rest2
            else if n < 0xDC00 then
              match rest2 with
              | '\\' :: 'u' :: a2 :: b2 :: c2 :: d2 :: rest3 =>
                match hex4 a2 b2 c2 d2 with
                | some m =>
                  if 0xDC00 ≤ m ∧ m < 0xE000 then
                    parseStrBody f
                      (Char.ofNat (0x10000 + (n - 0xD800) * 0x400 + (m - 0xDC00)) :: acc) rest3
                  else none
                | none => none
              | _ => none
            else none
        | _ => none
      | _ => none
    | c :: rest =>
      if c.toNat < 32 then none else parseStrBody f (c :: acc) rest

/-- Integer part of a JSON number: `0`, or a nonzero digit followed by digits. -/
def lexIntPart (l : List Char) : Option (List Char × List Char) :=
  match l with
  | '0' :: rest => some (['0'], rest)
  | c :: rest =>
    if c.isDigit then
      some (c :: rest.takeWhile Char.isDigit, rest.dropWhile Char.isDigit)
    else none
  | [] => none

/-- Optional fraction part: a dot followed by one or more digits. -/
def lexFracPart (l : List Char) : Option (List Char × List Char) :=
  match l with
  | '.' :: rest =>
    let ds := rest.takeWhile Char.isDigit
    if ds.isEmpty then none else some ('.' :: ds, rest.dropWhile Char.isDigit)
  | _ => some ([], l)

/-- Optional exponent part: `e`/`E`, optional sign, one or more digits. -/
def lexExpPart (l : List Char) : Option (List Char × List Char) :=
  match l with
  | c :: rest =>
    if c = 'e' ∨ c = 'E' then
      match rest with
      | s :: rest2 =>
        if s = '+' ∨ s = '-' then
          let ds := rest2.takeWhile Char.isDigit
          if ds.isEmpty then none else some (c :: s :: ds, rest2.dropWhile Char.isDigit)
        else
          let ds := rest.takeWhile Char.isDigit
          if ds.isEmpty then none else some (c :: ds, rest.dropWhile Char.isDigit)
      | [] => none
    else some ([], l)
  | [] => some ([], l)

/-- Value of a digit string. -/
def digitsVal (l : List Char) : Nat :=
  l.foldl (fun a c => a * 10 + (c.toNat - 48)) 0

/-- Lex a JSON number at the head of the input; return its `Json` value and
the rest.  Integer-form numbers become `Json.int`; numbers with a fraction
or exponent are kept by lexeme. -/
def lexNumber (l : List Char) : Option (Json × List Char) :=
  let sgn : List Char × List Char :=
    match l with
    | '-' :: r => (['-'], r)
    | _ => ([], l)
  match lexIntPart sgn.2 with
  | none => none
  | some (ip, l2) =>
    match lexFracPart l2 with
    | none => none
    | some (fp, l3) =>
      match lexExpPart l3 with
      | none => none
      | some (ep, l4) =>
        if fp.isEmpty ∧ ep.isEmpty then
          if sgn.1.isEmpty then some (Json.int (digitsVal ip), l4)
          else some (Json.int (-(digitsVal ip : Int)), l4)
        else some (Json.numLex (String.mk (sgn.1 ++ ip ++ fp ++ ep)), l4)

mutual

/-- Parse one JSON value (leading whitespace allowed), returning it and the
remaining input.  Fuel bounds the recursion depth; `jsonLoads` supplies
enough fuel for any input it is called on, and exhaustion mirrors Python's
`RecursionError` on pathologically nested input (which the bare `except`
of `rank_candidates` also turns into the fallback). -/
def parseValue (fuel : Nat) (l : List Char) : Option (Json × List Char) :=
  match fuel with
  | 0 => none
  | f + 1 =>
    match skipJsonWs l with
    | '"' :: rest => (parseStrBody (rest.length + 1) [] rest).map fun p => (Json.str p.1, p.2)
    | '[' :: rest =>
      (match skipJsonWs rest with
      | ']' :: r2 => some (Json.arr [], r2)
      | r2 => (parseElems f r2).map fun p => (Json.arr p.1, p.2))
    | '\x7b' :: rest =>
      (match skipJsonWs rest with
      | '\x7d' :: r2 => some (Json.obj [], r2)
      | r2 => (parseFields f r2).map fun p => (Json.obj p.1, p.2))
    | 't' :: 'r' :: 'u' :: 'e' :: rest => some (Json.bool true, rest)
    | 'f' :: 'a' :: 'l' :: 's' :: 'e' :: rest => some (Json.bool false, rest)
    | 'n' :: 'u' :: 'l' :: 'l' :: rest => some (Json.null, rest)
    | 'N' :: 'a' :: 'N' :: rest => some (Json.numLex "NaN", rest)
    | 'I' :: 'n' :: 'f' :: 'i' :: 'n' :: 'i' :: 't' :: 'y' :: rest =>
      some (Json.numLex "Infinity", rest)
    | '-' :: 'I' :: 'n' :: 'f' :: 'i' :: 'n' :: 'i' :: 't' :: 'y' :: rest =>
      some (Json.numLex "-Infinity", rest)
    | l2 => lexNumber l2

/-- Parse the elements of a non-empty array, positioned after the opening
bracket (and not at an immediate closing bracket). -/
def parseElems (fuel : Nat) (l : List Char) : Option (List Json × List Char) :=
  match fuel with
  | 0 => none
  | f + 1 =>
    match parseValue f l with
    | none => none
    | some (v, rest) =>
      match skipJsonWs rest with
      | ',' :: r2 => (parseElems f r2).map fun p => (v :: p.1, p.2)
      | ']' :: r2 => some ([v], r2)
      | _ => none

/-- Parse the fields of a non-empty object, positioned after the opening
brace (and not at an immediate closing brace). -/
def parseFields (fuel : Nat) (l : List Char) : Option (List (String × Json) × List Char) :=
  match fuel with
  | 0 => none
  | f + 1 =>
    match skipJsonWs l with
    | '"' :: rest =>
      match parseStrBody (rest.length + 1) [] rest with
      | none => none
      | some (key, r1) =>
        match skipJsonWs r1 with
        | ':' :: r2 =>
          match parseValue f r2 with
          | none => none
          | some (v, r3) =>
            match skipJsonWs r3 with
            | ',' :: r4 => (parseFields f r4).map fun p => ((key, v) :: p.1, p.2)
            | '\x7d' :: r4 => some ([(key, v)], r4)
            | _ => none
        | _ => none
    | _ => none

end

/-- Python's `json.loads`: parse one value and require only whitespace after. -/
def jsonLoads (l : List Char) : Option Json :=
  match parseValue (2 * l.length + 2) l with
  | some (v, rest) => if (skipJsonWs rest).isEmpty then some v else none
  | none => none

/-! ### The extraction step of `rank_candidates`

Lines 138-150 of `rag_engine.py`: start from
`markdown_part = response` and `structured_data = []`; search for the
array pattern; on a match, try `json.loads` on the matched group and, on
success, set `structured_data` to the parsed array and `markdown_part` to
the stripped prefix before the match; any failure is swallowed by the bare
`except` and the initial values are returned.  The matched group begins
with a left bracket, so a successful `json.loads` necessarily yields an
array; the embedding is total, mirroring that the Python extraction never
raises. -/

def extract_ranking (response : String) : String × List Json :=
  match reSearch response.data with
  | none => (response, [])
  | some (i, e) =>
    match jsonLoads ((response.data.drop i).take (e - i)) with
    | some (Json.arr l) => (pyStrip (String.mk (response.data.take i)), l)
    | _ => (response, [])

/-! ### Engine state, ingestion, and the four operations -/

/-- One uploaded file, as `process_resumes` sees it.  `pages` is the result
of the external PyPDFLoader on the payload bytes written to the temp file:
the per-page texts, or `none` when the payload is not a well-formed PDF and
`loader.load()` raises (the loader is an external capability; the payload
bytes themselves are opaque to the core). -/
structure UploadedFile where
  name : String
  pages : Option (List String)
deriving DecidableEq, Repr

/-- A langchain document / chunk: page content plus the metadata
`process_resumes` uses (`source`, set on line 40, and the loader's page
number). -/
structure Doc where
  pageContent : String
  source : String
  page : Nat
deriving DecidableEq, Repr

/-- The engine's only mutable state: `self.vector_store`, `None` until a
successful build.  The FAISS store is modelled as the list of embedded
chunks. -/
structure EngineState where
  vector_store : Option (List Doc)
deriving DecidableEq, Repr

/-- The temp-file area of the filesystem: which temp paths currently exist,
plus a counter from which `tempfile.NamedTemporaryFile` draws fresh names. -/
structure FS where
  files : List Nat
  next : Nat
deriving DecidableEq, Repr

/-- The per-file loop of `process_resumes` (lines 29-43): for each uploaded
file, create a temp file, run the loader inside `try`, tag every resulting
document's `source` metadata with the file's display name, and remove the
temp file in `finally` — so a loader failure still deletes the temp file
and then propagates, aborting the loop. -/
def loadBatch : List UploadedFile → FS → Except Unit (List Doc) × FS
  | [], fs => (Except.ok [], fs)
  | f :: rest, fs =>
    let path := fs.next
    let fs1 : FS := ⟨fs.files ++ [path], fs.next + 1⟩
    match f.pages with
    | none =>
      (Except.error (), ⟨fs1.files.erase path, fs1.next⟩)
    | some pages =>
      let docs := pages.enum.map fun pr => Doc.mk pr.2 f.name pr.1
      let fs2 : FS := ⟨fs1.files.erase path, fs1.next⟩
      match loadBatch rest fs2 with
      | (r, fs3) => (r.map fun ds => docs ++ ds, fs3)

/-- Modelled from the spec: the external RecursiveCharacterTextSplitter
with `chunk_size=1000`, `chunk_overlap=100` — a sliding window of width
1000 advancing by 900 characters over each document's text (the library's
separator-aware refinement is immaterial to every claim, which depend only
on determinism and metadata preservation). -/
def chunkTextAux : Nat → List Char → List (List Char)
  | _, [] => []
  | 0, l => [l]
  | f + 1, l => if l.length ≤ 1000 then [l] else l.take 1000 :: chunkTextAux f (l.drop 900)

def chunkText (s : String) : List String :=
  (chunkTextAux s.data.length s.data).map String.mk

/-- `text_splitter.split_documents` (line 50): chunk each document's text,
copying its metadata onto every chunk. -/
def split_documents (docs : List Doc) : List Doc :=
  docs.flatMap fun d => (chunkText d.pageContent).map fun t => Doc.mk t d.source d.page

/-- `FAISS.from_documents(chunks, self.embeddings)` (line 53): embeds every
chunk through the external embedding client and builds the store.
`embedOk` abstracts the client: the build raises (IndexBuildError) exactly
when embedding fails on some chunk; on success the store holds the chunks. -/
def from_documents (embedOk : String → Bool) (chunks : List Doc) : Except Unit (List Doc) :=
  if chunks.all fun c => embedOk c.pageContent then Except.ok chunks else Except.error ()

/-- The error taxonomy of the spec for `process_resumes`. -/
inductive RagError where
  | extraction : RagError
  | indexBuild : RagError
deriving DecidableEq, Repr

/-- `process_resumes` (lines 23-54): run the loader loop, chunk, build the
FAISS store, and assign it to `self.vector_store`.  An error at any step
propagates to the caller and the assignment on line 53 never executes, so
the returned engine state is the unchanged input state.  The result is
(outcome, engine state after the call, filesystem after the call). -/
def process_resumes (embedOk : String → Bool) (uploaded_files : List UploadedFile)
    (st : EngineState) (fs : FS) : Except RagError Unit × EngineState × FS :=
  match loadBatch uploaded_files fs with
  | (Except.error _, fs2) => (Except.error RagError.extraction, st, fs2)
  | (Except.ok docs, fs2) =>
    let chunks := split_documents docs
    match from_documents embedOk chunks with
    | Except.error _ => (Except.error RagError.indexBuild, st, fs2)
    | Except.ok store => (Except.ok (), ⟨some store⟩, fs2)

/-- Insert a document into a list kept in descending similarity order. -/
def insertRanked (score : Doc → Nat) (d : Doc) : List Doc → List Doc
  | [] => [d]
  | e :: es => if score e < score d then d :: e :: es else e :: insertRanked score d es

/-- Sort the store by descending similarity score. -/
def rankDocs (score : Doc → Nat) : List Doc → List Doc
  | [] => []
  | d :: ds => insertRanked score d (rankDocs score ds)

/-- The FAISS retriever with `search_kwargs={"k": k}`: embed the query via
the external client (abstracted into the similarity score) and return the
`k` most similar chunks of the store. -/
def retrieve (score : Doc → Nat) (store : List Doc) (k : Nat) : List Doc :=
  (rankDocs score store).take k

/-- One conversation turn `(role, content)`. -/
abbrev Turn := String × String

/-- A call to an external capability, recorded so that "no model call"
is provable: an embedding-model call or a generative-model call. -/
inductive ExtCall where
  | embed (text : String) : ExtCall
  | llm (tag : String) : ExtCall
deriving DecidableEq, Repr

/-- The fixed not-ready sentinel of `get_response` and `rank_candidates`. -/
def sentinelNotReady : String := "Please upload some resumes first."

/-- The fixed not-ready sentinel of `summarize_resumes`. -/
def sentinelNoResumes : String := "No resumes indexed."

/-- Modelled from langchain's documented `create_history_aware_retriever`
contract (lines 81-83 build it from the contextualize prompt): when there
is no chat history the input question is passed directly to the retriever
with no generative call; otherwise one generative call rewrites the
question and the retriever runs on its output.  `rewrite` is the external
generative model under the contextualize prompt; `score` is the
query-dependent similarity of the external embedding client. -/
def history_aware_retrieve (rewrite : String → List Turn → String)
    (score : String → Doc → Nat) (store : List Doc) (k : Nat)
    (query : String) (chat_history : List Turn) : List Doc × List ExtCall :=
  if chat_history.isEmpty then
    (retrieve (score query) store k, [ExtCall.embed query])
  else
    let rewritten := rewrite query chat_history
    (retrieve (score rewritten) store k, [ExtCall.llm query, ExtCall.embed rewritten])

/-- `get_response` (lines 56-106): return the fixed sentinel with no
external call when no vector store exists; otherwise normalise the history
(`chat_history or []`, line 105), run the history-aware retrieval at k=5,
and issue one generative call synthesising the answer from the retrieved
context and history.  `synth` is the external generative model under the
QA prompt. -/
def get_response (rewrite : String → List Turn → String)
    (synth : String → List Doc → List Turn → String)
    (score : String → Doc → Nat) (st : EngineState)
    (query : String) (chat_history : Option (List Turn)) :
    String × List ExtCall :=
  match st.vector_store with
  | none => (sentinelNotReady, [])
  | some store =>
    let history := chat_history.getD []
    let r := history_aware_retrieve rewrite score store 5 query history
    (synth query r.1 history, r.2 ++ [ExtCall.llm query])

/-- `rank_candidates` (lines 108-150): return the sentinel and an empty
list with no external call when no vector store exists; otherwise retrieve
at k=20 on the job description, issue one generative call, and run the
extraction step on its raw response.  `llmRank` is the external generative
model under the ranking prompt. -/
def rank_candidates (llmRank : String → List Doc → String)
    (score : String → Doc → Nat) (st : EngineState) (job_description : String) :
    (String × List Json) × List ExtCall :=
  match st.vector_store with
  | none => ((sentinelNotReady, []), [])
  | some store =>
    let docs := retrieve (score job_description) store 20
    let response := llmRank job_description docs
    (extract_ranking response, [ExtCall.embed job_description, ExtCall.llm job_description])

/-- The fixed internal query of `summarize_resumes` (line 161). -/
def summarizeQuery : String := "Summarize all candidates and their key skills."

/-- `summarize_resumes` (lines 152-171): return the fixed sentinel with no
external call when no vector store exists; otherwise retrieve at k=15 on
the fixed internal query and issue one generative call.  `llmSum` is the
external generative model under the summary prompt. -/
def summarize_resumes (llmSum : List Doc → String)
    (score : String → Doc → Nat) (st : EngineState) : String × List ExtCall :=
  match st.vector_store with
  | none => (sentinelNoResumes, [])
  | some store =>
    let docs := retrieve (score summarizeQuery) store 15
    (llmSum docs, [ExtCall.embed summarizeQuery, ExtCall.llm summarizeQuery])

/-! ### Concrete fixtures used by counterexamples and witnesses -/

/-- A raw ranking response that is exactly a well-formed JSON array of
objects, with nothing before it. -/
def cexArrayOnly : String :=
  "[\x7b\"name\": \"A\", \"score\": 1, \"reasoning_summary\": \"x\"\x7d]"

/-- A raw ranking response with a narrative followed by a well-formed JSON
array of objects; the regex match starts at index 19 and ends at 77. -/
def respNarrArray : String :=
  "Ranked list first.\n[\x7b\"name\": \"B\", \"score\": 88, \"reasoning_summary\": \"solid\"\x7d]"

/-- The records declared by the array inside `respNarrArray`. -/
def narrArrayRecords : List Json :=
  [Json.obj [("name", Json.str "B"), ("score", Json.int 88),
    ("reasoning_summary", Json.str "solid")]]

/-- A raw ranking response containing no array-of-objects pattern. -/
def respNoArray : String := "No candidates were found."

/-- An uploaded file whose payload the loader cannot parse. -/
def wBadFile : UploadedFile := ⟨"bad.pdf", none⟩

/-- A well-formed one-page uploaded file. -/
def wFileA : UploadedFile := ⟨"A.pdf", some ["Skilled in Python"]⟩

/-- A second well-formed one-page uploaded file. -/
def wFileB : UploadedFile := ⟨"B.pdf", some ["Expert in Java"]⟩

/-- The store built from `wFileA` alone. -/
def wStoreA : List Doc := [⟨"Skilled in Python", "A.pdf", 0⟩]

/-- The store built from `wFileB` alone. -/
def wStoreB : List Doc := [⟨"Expert in Java", "B.pdf", 0⟩]

/-- A document standing for a previously built index. -/
def wOldDoc : Doc := ⟨"old content", "old.pdf", 0⟩

/-! ### Helper lemmas -/

theorem mem_insertRanked (score : Doc → Nat) (d a : Doc) (l : List Doc) :
    a ∈ insertRanked score d l ↔ a = d ∨ a ∈ l := by
  induction l with
  | nil => simp [insertRanked]
  | cons e es ih =>
    by_cases h : score e < score d
    · simp [insertRanked, h]
    · simp [insertRanked, h, ih]
      tauto

theorem mem_rankDocs (score : Doc → Nat) (a : Doc) (l : List Doc) :
    a ∈ rankDocs score l ↔ a ∈ l := by
  induction l with
  | nil => simp [rankDocs]
  | cons d ds ih => simp [rankDocs, mem_insertRanked, ih]

theorem retrieve_length_le (score : Doc → Nat) (store : List Doc) (k : Nat) :
    (retrieve score store k).length ≤ k :=
  List.length_take_le k (rankDocs score store)

theorem retrieve_mem (score : Doc → Nat) (store : List Doc) (k : Nat) (d : Doc)
    (h : d ∈ retrieve score store k) : d ∈ store :=
  (mem_rankDocs score d store).mp (List.take_subset k (rankDocs score store) h)

theorem append_fresh_erase (l : List Nat) (a : Nat) (h : a ∉ l) :
    (l ++ [a]).erase a = l := by
  rw [List.erase_append_right [a] h, List.erase_cons_head, List.append_nil]

/-- The loader loop deletes every temp file it creates and only draws fresh
names, so the set of temp files is restored and the counter never
decreases — on success and on the extraction-failure path alike. -/
theorem loadBatch_fs_spec (files : List UploadedFile) (fs : FS)
    (hfs : ∀ p ∈ fs.files, p < fs.next) :
    (loadBatch files fs).2.files = fs.files ∧ fs.next ≤ (loadBatch files fs).2.next := by
  induction files generalizing fs with
  | nil => simp [loadBatch]
  | cons f rest ih =>
    have hfresh : fs.next ∉ fs.files := fun hmem => absurd (hfs fs.next hmem) (lt_irrefl _)
    have herase : (fs.files ++ [fs.next]).erase fs.next = fs.files :=
      append_fresh_erase fs.files fs.next hfresh
    cases hp : f.pages with
    | none =>
      simp [loadBatch, hp, herase]
    | some pages =>
      have hfs2 : ∀ p ∈ fs.files, p < fs.next + 1 := fun p hm => Nat.lt_succ_of_lt (hfs p hm)
      have ih2 := ih ⟨fs.files, fs.next + 1⟩ hfs2
      rcases hlb : loadBatch rest ⟨fs.files, fs.next + 1⟩ with ⟨r, fs3⟩
      rw [hlb] at ih2
      simp only [loadBatch, hp, herase]
      rw [hlb]
      exact ⟨ih2.1, Nat.le_of_succ_le ih2.2⟩

/-- `process_resumes` threads the filesystem through the loader loop only. -/
theorem process_resumes_fs (e : String → Bool) (files : List UploadedFile)
    (st : EngineState) (fs : FS) :
    (process_resumes e files st fs).2.2 = (loadBatch files fs).2 := by
  rcases hlb : loadBatch files fs with ⟨r, fs2⟩
  cases r with
  | error u => simp [process_resumes, hlb]
  | ok docs =>
    simp only [process_resumes, hlb]
    cases from_documents e (split_documents docs) <;> simp

/-- The documents produced by the loader loop do not depend on the
filesystem (temp-file names never reach the documents). -/
theorem loadBatch_fst_indep (files : List UploadedFile) (fs fs2 : FS) :
    (loadBatch files fs).1 = (loadBatch files fs2).1 := by
  induction files generalizing fs fs2 with
  | nil => simp [loadBatch]
  | cons f rest ih =>
    cases hp : f.pages with
    | none => simp [loadBatch, hp]
    | some pages =>
      simp only [loadBatch, hp]
      rcases hl1 : loadBatch rest ⟨(fs.files ++ [fs.next]).erase fs.next, fs.next + 1⟩ with ⟨r1, g1⟩
      rcases hl2 : loadBatch rest ⟨(fs2.files ++ [fs2.next]).erase fs2.next, fs2.next + 1⟩ with ⟨r2, g2⟩
      have := ih ⟨(fs.files ++ [fs.next]).erase fs.next, fs.next + 1⟩
        ⟨(fs2.files ++ [fs2.next]).erase fs2.next, fs2.next + 1⟩
      rw [hl1, hl2] at this
      simp only at this
      simp [this]

/-- Every document produced by a successful loader loop carries the display
name of one of the uploaded files as its `source` metadata. -/
theorem loadBatch_ok_sources (files : List UploadedFile) (fs fs2 : FS) (docs : List Doc)
    (h : loadBatch files fs = (Except.ok docs, fs2)) :
    ∀ d ∈ docs, d.source ∈ files.map UploadedFile.name := by
  induction files generalizing fs fs2 docs with
  | nil =>
    simp only [loadBatch] at h
    obtain ⟨h1, _⟩ := Prod.mk.injEq .. ▸ h
    cases h
    simp
  | cons f rest ih =>
    cases hp : f.pages with
    | none => simp [loadBatch, hp] at h
    | some pages =>
      simp only [loadBatch, hp] at h
      rcases hlb : loadBatch rest ⟨(fs.files ++ [fs.next]).erase fs.next, fs.next + 1⟩ with ⟨r, fs3⟩
      rw [hlb] at h
      cases r with
      | error u => simp [Except.map] at h
      | ok docs2 =>
        simp only [Except.map] at h
        obtain ⟨hdocs, _⟩ := Prod.mk.injEq .. ▸ h
        have hdocs2 : docs = (pages.enum.map fun pr => Doc.mk pr.2 f.name pr.1) ++ docs2 := by
          cases h
          rfl
        intro d hd
        rw [hdocs2] at hd
        rcases List.mem_append.mp hd with hin | hin
        · rcases List.mem_map.mp hin with ⟨pr, _, hpr⟩
          simp [← hpr]
        · have := ih _ _ _ hlb d hin
          simp only [List.map_cons, List.mem_cons]
          exact Or.inr this

/-- Every chunk produced by the splitter carries the `source` of one of the
input documents. -/
theorem split_documents_source (docs : List Doc) (d : Doc)
    (h : d ∈ split_documents docs) : ∃ d0 ∈ docs, d.source = d0.source := by
  rcases List.mem_flatMap.mp h with ⟨d0, hd0, hin⟩
  rcases List.mem_map.mp hin with ⟨t, _, ht⟩
  exact ⟨d0, hd0, by rw [← ht]⟩

/-- A successful `process_resumes` stores exactly the chunks of the batch's
documents, and the build check passed on them. -/
theorem process_resumes_ok_store (e : String → Bool) (files : List UploadedFile)
    (st st2 : EngineState) (fs fs2 : FS)
    (h : process_resumes e files st fs = (Except.ok (), st2, fs2)) :
    ∃ docs, loadBatch files fs = (Except.ok docs, fs2) ∧
      st2 = ⟨some (split_documents docs)⟩ ∧
      from_documents e (split_documents docs) = Except.ok (split_documents docs) := by
  rcases hlb : loadBatch files fs with ⟨r, fs3⟩
  cases r with
  | error u => simp [process_resumes, hlb] at h
  | ok docs =>
    simp only [process_resumes, hlb] at h
    cases hfd : from_documents e (split_documents docs) with
    | error u => rw [hfd] at h; simp at h
    | ok store =>
      rw [hfd] at h
      simp only [Prod.mk.injEq, true_and] at h
      have hst : store = split_documents docs := by
        unfold from_documents at hfd
        split at hfd
        · exact (Except.ok.inj hfd).symm
        · exact Except.noConfusion hfd
      exact ⟨docs, by rw [h.2], by rw [← h.1, hst], by rw [hst] at hfd; exact hfd⟩

/-- A successful parse of input beginning with a left bracket yields an
array value. -/
theorem parseValue_bracket_arr (f : Nat) (rest : List Char) (v : Json) (r : List Char)
    (h : parseValue (f + 1) ('[' :: rest) = some (v, r)) : ∃ elems, v = Json.arr elems := by
  have h2 : (match skipJsonWs rest with
      | ']' :: r2 => some (Json.arr [], r2)
      | r2 => (parseElems f r2).map fun p => (Json.arr p.1, p.2)) = some (v, r) := h
  split at h2
  · obtain ⟨hv, _⟩ := Prod.mk.injEq .. ▸ Option.some.inj h2
    exact ⟨[], hv.symm⟩
  · rcases Option.map_eq_some'.mp h2 with ⟨p, _, hv⟩
    exact ⟨p.1, (congrArg Prod.fst hv).symm⟩

/-- Justification of the extraction embedding's fallback arm: `json.loads`
on text beginning with a left bracket — as every regex-matched group does —
returns an array whenever it succeeds, so the successful-non-array case of
`extract_ranking` is unreachable, exactly as in the Python code. -/
theorem jsonLoads_bracket_arr (rest : List Char) (v : Json)
    (h : jsonLoads ('[' :: rest) = some v) : ∃ elems, v = Json.arr elems := by
  unfold jsonLoads at h
  rcases hpv : parseValue (2 * ('[' :: rest).length + 2) ('[' :: rest) with _ | ⟨⟨v2, r2⟩⟩
  · rw [hpv] at h
    simp at h
  · rw [hpv] at h
    have h2 : (if (skipJsonWs r2).isEmpty = true then some v2 else none) = some v := h
    by_cases he : (skipJsonWs r2).isEmpty = true
    · rw [if_pos he] at h2
      have hv : v = v2 := (Option.some.inj h2).symm
      obtain ⟨elems, harr⟩ :=
        parseValue_bracket_arr (2 * ('[' :: rest).length + 1) rest v2 r2 hpv
      exact ⟨elems, hv ▸ harr⟩
    · rw [if_neg he] at h2
      exact Option.noConfusion h2

/-! ### The claims -/

/-- C1 (counterexample): the claim asserts a non-empty narrative for every
response containing a well-formed JSON array of objects, but on a response
that is exactly such an array the narrative `response[:match.start()].strip()`
is empty while the structured list is parsed from the array — so the
claim's non-emptiness conjunct is false on the code. -/
theorem C1_empty_narrative_counterexample :
    extract_ranking cexArrayOnly =
      ("", [Json.obj [("name", Json.str "A"), ("score", Json.int 1),
        ("reasoning_summary", Json.str "x")]]) := rfl

/-- C1 (amended): for every raw ranking response on which the array
pattern finds a (leftmost, greedy) match whose text parses as a JSON
array, `rank_candidates` splits the response into the whitespace-stripped
prefix before the match — possibly empty, when the array opens the
response — and the list parsed from the matched text, whose length equals
the array's element count and whose records are exactly as the source
declared them. -/
theorem C1_rank_split_on_parsable_match (response : String) (i e : Nat) (l : List Json)
    (hs : reSearch response.data = some (i, e))
    (hp : jsonLoads ((response.data.drop i).take (e - i)) = some (Json.arr l)) :
    extract_ranking response = (pyStrip (String.mk (response.data.take i)), l) ∧
    (extract_ranking response).2.length = l.length := by
  unfold extract_ranking
  rw [hs]
  simp [hp]

/-- C1 (witness): the amended claim at a concrete response whose narrative
precedes the array. -/
theorem C1_rank_split_witness :
    extract_ranking respNarrArray =
      (pyStrip (String.mk (respNarrArray.data.take 19)), narrArrayRecords) ∧
    (extract_ranking respNarrArray).2.length = narrArrayRecords.length :=
  C1_rank_split_on_parsable_match respNarrArray 19 77 narrArrayRecords rfl rfl

/-- C2: on every raw ranking response in which the array pattern finds no
match, or the matched text fails `json.loads`, `rank_candidates` returns
the full raw response as the narrative and an empty structured list; the
embedding is a total function, mirroring that the bare `except` makes the
extraction step never raise. -/
theorem C2_extraction_fallback (response : String)
    (h : reSearch response.data = none ∨
      ∃ i e, reSearch response.data = some (i, e) ∧
        jsonLoads ((response.data.drop i).take (e - i)) = none) :
    extract_ranking response = (response, []) := by
  rcases h with h | ⟨i, e, hs, hp⟩
  · unfold extract_ranking
    rw [h]
  · unfold extract_ranking
    rw [hs]
    simp only [hp]

/-- C2 (witness): the fallback at a concrete response with no array. -/
theorem C2_extraction_fallback_witness :
    extract_ranking respNoArray = (respNoArray, []) :=
  C2_extraction_fallback respNoArray (Or.inl rfl)

/-- C3 (counterexample): the claim asserts that an extraction failure is
absorbed and the batch continues with the remaining payloads, but the
loop of `process_resumes` has `try/finally` with no `except`: on a batch
whose first payload fails, the call returns the extraction error — the
failure escalates past the batch boundary and the second payload is never
processed (the temp-name counter stops at 1). -/
theorem C3_isolation_counterexample :
    process_resumes (fun _ => true) [wBadFile, wFileA] ⟨none⟩ ⟨[], 0⟩ =
      (Except.error RagError.extraction, ⟨none⟩, ⟨[], 1⟩) := rfl

/-- C3 (amended): if extraction of one payload fails, `process_resumes`
deletes that payload's temporary file and propagates the extraction
failure to the caller, aborting the batch; the previously active vector
store (or the initial empty state) is left unchanged. -/
theorem C3_extraction_failure_aborts_batch (e : String → Bool)
    (pre : List UploadedFile) (bad : UploadedFile) (rest : List UploadedFile)
    (st : EngineState) (fs : FS)
    (hbad : bad.pages = none) (hpre : ∀ f ∈ pre, f.pages ≠ none) :
    (process_resumes e (pre ++ bad :: rest) st fs).1 = Except.error RagError.extraction ∧
    (process_resumes e (pre ++ bad :: rest) st fs).2.1 = st := by
  have herr : ∀ fs0 : FS, (loadBatch (pre ++ bad :: rest) fs0).1 = Except.error () := by
    induction pre with
    | nil =>
      intro fs0
      simp [loadBatch, hbad]
    | cons f pre2 ih =>
      intro fs0
      have hf : f.pages ≠ none := hpre f (List.mem_cons_self f pre2)
      cases hp : f.pages with
      | none => exact absurd hp hf
      | some pages =>
        have ih2 := ih fun g hg => hpre g (List.mem_cons_of_mem f hg)
        simp only [List.cons_append, loadBatch, hp]
        rcases hlb : loadBatch (pre2 ++ bad :: rest)
            ⟨(fs0.files ++ [fs0.next]).erase fs0.next, fs0.next + 1⟩ with ⟨r, fs3⟩
        have := ih2 ⟨(fs0.files ++ [fs0.next]).erase fs0.next, fs0.next + 1⟩
        rw [hlb] at this
        simp only at this
        rw [this]
        simp [Except.map]
  rcases hlb : loadBatch (pre ++ bad :: rest) fs with ⟨r, fs2⟩
  have hr := herr fs
  rw [hlb] at hr
  simp only at hr
  rw [hr] at hlb
  constructor
  · simp [process_resumes, hlb]
  · simp [process_resumes, hlb]

/-- C3 (witness): the amended claim on a concrete batch whose second
payload fails, starting from a previously built index. -/
theorem C3_extraction_failure_witness :
    (process_resumes (fun _ => true) ([wFileA] ++ wBadFile :: [wFileB])
        ⟨some [wOldDoc]⟩ ⟨[], 0⟩).1 = Except.error RagError.extraction ∧
    (process_resumes (fun _ => true) ([wFileA] ++ wBadFile :: [wFileB])
        ⟨some [wOldDoc]⟩ ⟨[], 0⟩).2.1 = ⟨some [wOldDoc]⟩ :=
  C3_extraction_failure_aborts_batch (fun _ => true) [wFileA] wBadFile [wFileB]
    ⟨some [wOldDoc]⟩ ⟨[], 0⟩ rfl (by decide)

/-- C4: if the index build (the embedding step of `FAISS.from_documents`)
fails, the assignment to `self.vector_store` on line 53 never executes, so
the whole build aborts with the previously active vector store — or the
initial empty state — unchanged, and subsequent queries still see it. -/
theorem C4_build_failure_preserves_store (e : String → Bool)
    (files : List UploadedFile) (st : EngineState) (fs : FS)
    (h : (process_resumes e files st fs).1 = Except.error RagError.indexBuild) :
    (process_resumes e files st fs).2.1 = st := by
  rcases hlb : loadBatch files fs with ⟨r, fs2⟩
  cases r with
  | error u => simp [process_resumes, hlb]
  | ok docs =>
    simp only [process_resumes, hlb]
    cases hfd : from_documents e (split_documents docs) with
    | error u => simp
    | ok store =>
      rw [process_resumes, hlb] at h
      simp only [hfd] at h
      exact absurd h (by simp)

/-- C4 (witness): a failing embedding client aborts the build and the
prior one-document index remains the visible state. -/
theorem C4_build_failure_witness :
    (process_resumes (fun _ => false) [wFileA] ⟨some [wOldDoc]⟩ ⟨[], 0⟩).2.1 =
      ⟨some [wOldDoc]⟩ :=
  C4_build_failure_preserves_store (fun _ => false) [wFileA] ⟨some [wOldDoc]⟩ ⟨[], 0⟩ rfl

/-- C5: every query-class operation invoked while no index has been built
short-circuits on the `vector_store` check and returns its fixed not-ready
signal — the sentinel string for `get_response`, the sentinel paired with
an empty list for `rank_candidates`, the no-resumes sentinel for
`summarize_resumes` — with an empty external-call trace: no embedding and
no generative-model call is performed. -/
theorem C5_not_ready_short_circuit (rewrite : String → List Turn → String)
    (synth : String → List Doc → List Turn → String)
    (llmRank : String → List Doc → String) (llmSum : List Doc → String)
    (score : String → Doc → Nat) (st : EngineState)
    (q : String) (hist : Option (List Turn)) (jd : String)
    (h : st.vector_store = none) :
    get_response rewrite synth score st q hist = (sentinelNotReady, []) ∧
    rank_candidates llmRank score st jd = ((sentinelNotReady, []), []) ∧
    summarize_resumes llmSum score st = (sentinelNoResumes, []) := by
  unfold get_response rank_candidates summarize_resumes
  rw [h]
  exact ⟨rfl, rfl, rfl⟩

/-- C5 (witness): the short-circuits at the initial empty state. -/
theorem C5_not_ready_witness :
    get_response (fun q _ => q) (fun _ _ _ => "") (fun _ _ => 0) ⟨none⟩ "q" none =
      (sentinelNotReady, []) ∧
    rank_candidates (fun _ _ => "") (fun _ _ => 0) ⟨none⟩ "jd" = ((sentinelNotReady, []), []) ∧
    summarize_resumes (fun _ => "") (fun _ _ => 0) ⟨none⟩ = (sentinelNoResumes, []) :=
  C5_not_ready_short_circuit (fun q _ => q) (fun _ _ _ => "") (fun _ _ => "") (fun _ => "")
    (fun _ _ => 0) ⟨none⟩ "q" none "jd" rfl

/-- C6: every temporary file created by the loader loop is deleted before
`process_resumes` returns — the `finally: os.remove` runs on the success
path and on the path where extraction raises — so the temp-file area of
the filesystem is exactly what it was before the call (the hypothesis says
the fresh-name counter is ahead of every existing temp file, which holds
of any real filesystem state). -/
theorem C6_temp_files_removed (e : String → Bool) (files : List UploadedFile)
    (st : EngineState) (fs : FS) (hfs : ∀ p ∈ fs.files, p < fs.next) :
    (process_resumes e files st fs).2.2.files = fs.files := by
  rw [process_resumes_fs]
  exact (loadBatch_fs_spec files fs hfs).1

/-- C6 (witness): a batch containing a failing payload leaves no temp file
behind. -/
theorem C6_temp_files_witness :
    (process_resumes (fun _ => true) [wFileA, wBadFile] ⟨none⟩ ⟨[], 0⟩).2.2.files = [] :=
  C6_temp_files_removed (fun _ => true) [wFileA, wBadFile] ⟨none⟩ ⟨[], 0⟩ (by simp)

/-- C7: after a successful `process_resumes`, retrieval over the built
store returns at most `k` chunks for any `k` — in particular at most 5 for
the `k=5` retriever of `get_response` — and every returned chunk's
`source` metadata is the display name of one of the uploaded documents of
the batch. -/
theorem C7_retrieval_bounded_sources (e : String → Bool) (files : List UploadedFile)
    (st st2 : EngineState) (fs fs2 : FS) (store : List Doc) (score : Doc → Nat) (k : Nat)
    (hp : process_resumes e files st fs = (Except.ok (), st2, fs2))
    (hs : st2.vector_store = some store) :
    (retrieve score store k).length ≤ k ∧
    ∀ d ∈ retrieve score store k, d.source ∈ files.map UploadedFile.name := by
  obtain ⟨docs, hlb, hst, _⟩ := process_resumes_ok_store e files st st2 fs fs2 hp
  have hstore : store = split_documents docs := by
    rw [hst] at hs
    exact (Option.some.inj hs).symm
  refine ⟨retrieve_length_le score store k, fun d hd => ?_⟩
  have hmem : d ∈ split_documents docs := hstore ▸ retrieve_mem score store k d hd
  obtain ⟨d0, hd0, hsrc⟩ := split_documents_source docs d hmem
  rw [hsrc]
  exact loadBatch_ok_sources files fs fs2 docs hlb d0 hd0

/-- C7 (witness): the bound and source tracing at `k = 5` over the store
built from one concrete document. -/
theorem C7_retrieval_witness :
    (retrieve (fun _ => 0) wStoreA 5).length ≤ 5 ∧
    ∀ d ∈ retrieve (fun _ => 0) wStoreA 5, d.source ∈ [wFileA].map UploadedFile.name :=
  C7_retrieval_bounded_sources (fun _ => true) [wFileA] ⟨none⟩ ⟨some wStoreA⟩ ⟨[], 0⟩ ⟨[], 1⟩
    wStoreA (fun _ => 0) 5 rfl rfl

/-- C8: a second successful `process_resumes` replaces the index
wholesale: the resulting engine state equals the state produced by
building the second batch alone from the empty state (for any filesystem),
and every chunk visible to subsequent retrieval carries the name of a
document of the second batch only. -/
theorem C8_rebuild_wholesale (e : String → Bool) (b1 b2 : List UploadedFile)
    (st0 st1 st2 : EngineState) (fs0 fs1 fs2 fsE : FS)
    (h1 : process_resumes e b1 st0 fs0 = (Except.ok (), st1, fs1))
    (h2 : process_resumes e b2 st1 fs1 = (Except.ok (), st2, fs2)) :
    st2 = (process_resumes e b2 ⟨none⟩ fsE).2.1 ∧
    ∀ store, st2.vector_store = some store →
      ∀ d ∈ store, d.source ∈ b2.map UploadedFile.name := by
  obtain ⟨docs, hlb, hst, hfd⟩ := process_resumes_ok_store e b2 st1 st2 fs1 fs2 h2
  constructor
  · rcases hlbE : loadBatch b2 fsE with ⟨rE, fsE2⟩
    have hind := loadBatch_fst_indep b2 fs1 fsE
    rw [hlb, hlbE] at hind
    simp only at hind
    rw [← hind] at hlbE
    simp only [process_resumes, hlbE, hfd]
    exact hst
  · intro store hs d hd
    have hstore : store = split_documents docs := by
      rw [hst] at hs
      exact (Option.some.inj hs).symm
    obtain ⟨d0, hd0, hsrc⟩ := split_documents_source docs d (hstore ▸ hd)
    rw [hsrc]
    exact loadBatch_ok_sources b2 fs1 fs2 docs hlb d0 hd0

/-- C8 (witness): rebuilding with a second one-document batch yields
exactly the state of building that batch from the empty state, with all
chunks sourced from the second batch. -/
theorem C8_rebuild_witness :
    (⟨some wStoreB⟩ : EngineState) =
      (process_resumes (fun _ => true) [wFileB] ⟨none⟩ ⟨[], 0⟩).2.1 ∧
    ∀ store, (⟨some wStoreB⟩ : EngineState).vector_store = some store →
      ∀ d ∈ store, d.source ∈ [wFileB].map UploadedFile.name :=
  C8_rebuild_wholesale (fun _ => true) [wFileA] [wFileB] ⟨none⟩ ⟨some wStoreA⟩
    ⟨some wStoreB⟩ ⟨[], 0⟩ ⟨[], 1⟩ ⟨[], 2⟩ ⟨[], 0⟩ rfl rfl

/-- C9: with an empty conversation history the history-aware retriever is
a no-op rewriter: the question is passed unchanged to the retriever, and
the external-call trace is exactly one embedding call — no generative
call is issued (an explicit short-circuit, per the retriever's documented
contract). -/
theorem C9_empty_history_noop (rewrite : String → List Turn → String)
    (score : String → Doc → Nat) (store : List Doc) (k : Nat) (q : String) :
    history_aware_retrieve rewrite score store k q [] =
      (retrieve (score q) store k, [ExtCall.embed q]) := rfl

/-- C10: `get_response` with `chat_history = None` behaves identically to
`get_response` with the empty history list — `chat_history or []`
normalises both to the empty history before the chain is invoked. -/
theorem C10_none_history_eq_empty (rewrite : String → List Turn → String)
    (synth : String → List Doc → List Turn → String)
    (score : String → Doc → Nat) (st : EngineState) (q : String) :
    get_response rewrite synth score st q none =
      get_response rewrite synth score st q (some []) := rfl

end ResumeRAG
